import Mathlib

/-!
Verification of the dwarfreflect library: a shallow embedding of the
DWARF-based parameter-name resolver (resolver.go) and the dynamic
invocation layer (function.go), with theorems checking the stated
properties of the specification against the embedded code.

Go strings are modelled as lists of characters; Go byte values as
natural numbers; Go maps as association lists; reflect values and
types as a small closed universe sufficient for the properties at
hand.  Fallible operations return Except or Option.
-/

namespace Dwarfreflect

/-- Go strings modelled as lists of characters. -/
abbrev GoStr := List Char

/-- Convenience conversion from Lean string literals. -/
def gstr (s : String) : GoStr := s.data

/- ================= resolver.go: return-slot filtering ================= -/

/-- Model of strings.HasPrefix(param, tilde-r): matches the two leading
characters used by the Go compiler for synthesized return-value slots. -/
def startsWithTildeR : GoStr → Bool
  | '~' :: 'r' :: _ => true
  | _ => false

/-- Model of the validation loop inside discoverParameterNames: walk the
provisional list with its index, stopping (Go break) at the first entry
that bears the return-slot prefix at an index at or past paramCount / 2;
entries before the stop point are kept. -/
def scanReturnSlots (paramCount : Nat) : Nat → List GoStr → List GoStr
  | _, [] => []
  | i, p :: rest =>
    if startsWithTildeR p ∧ paramCount / 2 ≤ i then []
    else p :: scanReturnSlots paramCount (i + 1) rest

/-- Model of the per-hit logic of discoverParameterNames (resolver.go,
lines 228-252): on a hit allParams of length at least paramCount, take
the first paramCount entries, run the return-slot scan, return the
filtered list when it has exactly paramCount entries, otherwise the
unfiltered prefix when it has exactly paramCount entries; none means
the loop falls through to the next candidate. -/
def goResolveHit (allParams : List GoStr) (paramCount : Nat) : Option (List GoStr) :=
  if paramCount ≤ allParams.length then
    let inputParams := allParams.take paramCount
    let validParams := scanReturnSlots paramCount 0 inputParams
    if validParams.length = paramCount then some validParams
    else if inputParams.length = paramCount then some inputParams
    else none
  else none

/-- Spec-side plain take-first-paramCount function, for the refinement
claim: succeed exactly on hits of sufficient length and return the
first paramCount entries unchanged. -/
def plainTake (allParams : List GoStr) (paramCount : Nat) : Option (List GoStr) :=
  if paramCount ≤ allParams.length then some (allParams.take paramCount) else none

/-- The break condition of the validation loop at absolute index i. -/
def BreakAt (paramCount : Nat) (l : List GoStr) (i : Nat) : Prop :=
  startsWithTildeR (l.getD i []) = true ∧ paramCount / 2 ≤ i

instance (paramCount : Nat) (l : List GoStr) (i : Nat) :
    Decidable (BreakAt paramCount l i) := by
  unfold BreakAt; infer_instance

/-- The scan either keeps the whole list (no index satisfies the break
condition) or stops exactly at the first index that does. -/
theorem scanReturnSlots_spec (paramCount : Nat) :
    ∀ (k : Nat) (l : List GoStr),
      (scanReturnSlots paramCount k l = l ∧
        ∀ i, i < l.length → ¬ (startsWithTildeR (l.getD i []) = true ∧ paramCount / 2 ≤ k + i)) ∨
      (∃ j, j < l.length ∧ scanReturnSlots paramCount k l = l.take j ∧
        (startsWithTildeR (l.getD j []) = true ∧ paramCount / 2 ≤ k + j) ∧
        ∀ i, i < j → ¬ (startsWithTildeR (l.getD i []) = true ∧ paramCount / 2 ≤ k + i)) := by
  intro k l
  induction l generalizing k with
  | nil =>
    left
    refine ⟨rfl, ?_⟩
    intro i hi
    simp at hi
  | cons p rest ih =>
    by_cases hbrk : startsWithTildeR p ∧ paramCount / 2 ≤ k
    · right
      refine ⟨0, by simp, ?_, ?_, ?_⟩
      · simp [scanReturnSlots, hbrk]
      · simpa using hbrk
      · intro i hi; omega
    · have hscan : scanReturnSlots paramCount k (p :: rest)
          = p :: scanReturnSlots paramCount (k + 1) rest := by
        simp [scanReturnSlots, hbrk]
      rcases ih (k + 1) with ⟨heq, hnone⟩ | ⟨j, hj, heq, hcond, hmin⟩
      · left
        refine ⟨by rw [hscan, heq], ?_⟩
        intro i hi
        match i with
        | 0 => simpa using hbrk
        | i + 1 =>
          have := hnone i (by simpa using hi)
          simpa [Nat.add_comm, Nat.add_left_comm, Nat.add_assoc] using this
      · right
        refine ⟨j + 1, by simpa using hj, ?_, ?_, ?_⟩
        · rw [hscan, heq]; rfl
        · simpa [Nat.add_comm, Nat.add_left_comm, Nat.add_assoc] using hcond
        · intro i hi
          match i with
          | 0 => simpa using hbrk
          | i + 1 =>
            have := hmin i (by omega)
            simpa [Nat.add_comm, Nat.add_left_comm, Nat.add_assoc] using this

/-- The scan result is either the whole input or a strictly shorter
prefix of it. -/
theorem scanReturnSlots_cases (paramCount k : Nat) (l : List GoStr) :
    scanReturnSlots paramCount k l = l ∨
      ∃ j, j < l.length ∧ scanReturnSlots paramCount k l = l.take j := by
  rcases scanReturnSlots_spec paramCount k l with ⟨h, _⟩ | ⟨j, hj, h, _, _⟩
  · exact Or.inl h
  · exact Or.inr ⟨j, hj, h⟩

/-- On hits the resolver is extensionally the plain take-first-paramCount
function: the filter never changes the returned value. -/
theorem goResolveHit_eq_plainTake (allParams : List GoStr) (paramCount : Nat) :
    goResolveHit allParams paramCount = plainTake allParams paramCount := by
  unfold goResolveHit plainTake
  by_cases hlen : paramCount ≤ allParams.length
  · simp only [hlen, if_true]
    have htake : (allParams.take paramCount).length = paramCount := by
      simp [List.length_take, Nat.min_eq_left hlen]
    rcases scanReturnSlots_cases paramCount 0 (allParams.take paramCount) with h | ⟨j, hj, h⟩
    · simp [h, htake]
    · have hlt : ((allParams.take paramCount).take j).length < paramCount := by
        rw [List.length_take]
        omega
      rw [h]
      simp only [htake]
      rw [if_neg (by omega)]
      simp
  · rw [if_neg hlen, if_neg hlen]

/- ================= resolver.go: candidate key generation ================= -/

/-- Model of strings.Split(s, sep) for a single-character separator. -/
def goSplit (c : Char) : GoStr → List GoStr
  | [] => [[]]
  | a :: rest =>
    match goSplit c rest with
    | [] => [[]]
    | seg :: segs => if a = c then [] :: seg :: segs else (a :: seg) :: segs

/-- Model of strings.LastIndex(s, sub) for a single-character pattern,
returning -1 when the character is absent. -/
def goLastIndexChar (c : Char) (s : GoStr) : Int :=
  match s.reverse.findIdx? (fun x => x == c) with
  | none => -1
  | some i => (s.length : Int) - 1 - (i : Int)

/-- Model of strings.HasPrefix. -/
def goStartsWith : GoStr → GoStr → Bool
  | [], _ => true
  | _ :: _, [] => false
  | p :: ps, c :: cs => p == c && goStartsWith ps cs

/-- Model of strings.Contains: the pattern occurs as a contiguous
substring. -/
def goContains (sub : GoStr) : GoStr → Bool
  | [] => goStartsWith sub []
  | a :: rest => goStartsWith sub (a :: rest) || goContains sub rest

/-- Model of generateFunctionKeyCandidates (resolver.go, lines 280-306):
the runtime name itself; when the name has a path separator, the part
after the last separator; when the text before the last dot holds the
pointer-receiver marker, the reconstruction of the name from its two
halves around that dot. -/
def generateFunctionKeyCandidates (runtimeName : GoStr) : List GoStr :=
  let candidates := [runtimeName]
  let parts := goSplit '/' runtimeName
  let candidates :=
    if 1 < parts.length then candidates ++ [parts.getLastD []] else candidates
  if '.' ∈ runtimeName then
    let lastDot := goLastIndexChar '.' runtimeName
    if 0 < lastDot then
      let beforeLast := runtimeName.take lastDot.toNat
      let methodName := runtimeName.drop (lastDot.toNat + 1)
      if goContains (gstr "(*") beforeLast then
        candidates ++ [beforeLast ++ '.' :: methodName]
      else candidates
    else candidates
  else candidates

/-- Spec-side description of module-path stripping: the suffix of the
identifier after its last path separator. -/
def suffixAfterLastSlash (s : GoStr) : GoStr :=
  (s.reverse.takeWhile (fun c => !(c == '/'))).reverse

/-- The stripped form of an identifier: text after the last path
separator when one is present, the identifier itself otherwise. -/
def strippedForm (s : GoStr) : GoStr :=
  if '/' ∈ s then suffixAfterLastSlash s else s

theorem goSplit_ne_nil (c : Char) (s : GoStr) : goSplit c s ≠ [] := by
  cases s with
  | nil => simp [goSplit]
  | cons a rest =>
    unfold goSplit
    cases goSplit c rest with
    | nil => simp
    | cons seg segs =>
      by_cases h : a = c <;> simp [h]

theorem goSplit_length_one (c : Char) (s : GoStr) :
    (goSplit c s).length = 1 ↔ c ∉ s := by
  induction s with
  | nil => simp [goSplit]
  | cons a rest ih =>
    unfold goSplit
    cases hrest : goSplit c rest with
    | nil => exact absurd hrest (goSplit_ne_nil c rest)
    | cons seg segs =>
      dsimp only
      have hlen : (goSplit c rest).length = segs.length + 1 := by rw [hrest]; rfl
      by_cases h : a = c
      · subst h
        rw [if_pos rfl]
        constructor
        · intro hone
          simp only [List.length_cons] at hone
          omega
        · intro hnot
          exact absurd (List.mem_cons_self a rest) hnot
      · rw [if_neg h]
        simp only [List.length_cons]
        rw [hlen] at ih
        constructor
        · intro h1
          intro hmem
          rcases List.mem_cons.mp hmem with h2 | h2
          · exact h h2.symm
          · exact (ih.mp h1) h2
        · intro hnot
          exact ih.mpr (fun h2 => hnot (List.mem_cons_of_mem a h2))

theorem goSplit_no_sep (c : Char) (s : GoStr) (h : c ∉ s) : goSplit c s = [s] := by
  induction s with
  | nil => rfl
  | cons a rest ih =>
    have ha : a ≠ c := fun hac => h (hac ▸ List.mem_cons_self a rest)
    have hr : c ∉ rest := fun hm => h (List.mem_cons_of_mem a hm)
    unfold goSplit
    rw [ih hr]
    simp [ha]

theorem takeWhile_append_last (p : Char → Bool) (xs : GoStr) (y : Char) (hy : p y = false) :
    List.takeWhile p (xs ++ [y]) = List.takeWhile p xs := by
  induction xs with
  | nil => simp [List.takeWhile, hy]
  | cons a rest ih =>
    by_cases ha : p a
    · simp [List.takeWhile, ha, ih]
    · simp only [Bool.not_eq_true] at ha
      simp [List.takeWhile, ha]

theorem takeWhile_all (p : Char → Bool) (xs : GoStr) (h : ∀ x ∈ xs, p x = true) :
    List.takeWhile p xs = xs := by
  induction xs with
  | nil => rfl
  | cons a rest ih =>
    have ha : p a = true := h a (List.mem_cons_self a rest)
    simp [List.takeWhile, ha, ih (fun x hx => h x (List.mem_cons_of_mem a hx))]

theorem takeWhile_stop (p : Char → Bool) (xs ys : GoStr)
    (h : ∃ x ∈ xs, p x = false) :
    List.takeWhile p (xs ++ ys) = List.takeWhile p xs := by
  induction xs with
  | nil => simp at h
  | cons a rest ih =>
    by_cases ha : p a
    · rcases h with ⟨x, hx, hpx⟩
      rcases List.mem_cons.mp hx with rfl | hxr
      · rw [ha] at hpx; cases hpx
      · simp [List.takeWhile, ha, ih ⟨x, hxr, hpx⟩]
    · simp only [Bool.not_eq_true] at ha
      simp [List.takeWhile, ha]

theorem getLastD_cons_cons {α : Type} (x y : α) (l : List α) (d : α) :
    (x :: y :: l).getLastD d = (y :: l).getLastD d := by
  simp [List.getLastD_cons]

/-- Strings without a separator strip to themselves. -/
theorem suffixAfterLastSlash_no_slash (s : GoStr) (h : '/' ∉ s) :
    suffixAfterLastSlash s = s := by
  unfold suffixAfterLastSlash
  rw [takeWhile_all]
  · exact List.reverse_reverse s
  · intro x hx
    have hxs : x ∈ s := List.mem_reverse.mp hx
    have : x ≠ '/' := fun hc => h (hc ▸ hxs)
    simpa using this

/-- Prepending a non-separator character leaves the stripped suffix
unchanged when a separator occurs later. -/
theorem suffixAfterLastSlash_cons_of_mem (a : Char) (rest : GoStr) (hmem : '/' ∈ rest) :
    suffixAfterLastSlash (a :: rest) = suffixAfterLastSlash rest := by
  unfold suffixAfterLastSlash
  rw [List.reverse_cons, takeWhile_stop _ _ _ ⟨'/', List.mem_reverse.mpr hmem, by simp⟩]

/-- The last segment of the slash split is the suffix of the string
after its last path separator. -/
theorem goSplit_getLastD (s : GoStr) :
    (goSplit '/' s).getLastD [] = suffixAfterLastSlash s := by
  induction s with
  | nil => rfl
  | cons a rest ih =>
    unfold goSplit
    cases hrest : goSplit '/' rest with
    | nil => exact absurd hrest (goSplit_ne_nil '/' rest)
    | cons seg segs =>
      dsimp only
      by_cases ha : a = '/'
      · subst ha
        rw [if_pos rfl]
        have lhs : (([] : GoStr) :: seg :: segs).getLastD [] = (seg :: segs).getLastD [] :=
          getLastD_cons_cons _ _ _ _
        rw [lhs, ← hrest, ih]
        unfold suffixAfterLastSlash
        rw [List.reverse_cons, takeWhile_append_last _ _ _ (by simp)]
      · rw [if_neg ha]
        cases segs with
        | nil =>
          have hone : (goSplit '/' rest).length = 1 := by rw [hrest]; rfl
          have hns : '/' ∉ rest := (goSplit_length_one '/' rest).mp hone
          have hseg : seg = rest := by
            have h2 := goSplit_no_sep '/' rest hns
            rw [hrest] at h2
            simpa using h2
          rw [hseg]
          have lhs : ((a :: rest) :: ([] : List GoStr)).getLastD [] = a :: rest := by
            rw [List.getLastD_cons]; rfl
          rw [lhs, suffixAfterLastSlash_no_slash]
          intro hmem
          rcases List.mem_cons.mp hmem with h2 | h2
          · exact ha h2.symm
          · exact hns h2
        | cons s1 srest =>
          have hmem : '/' ∈ rest := by
            by_contra hns
            have h1 := (goSplit_length_one '/' rest).mpr hns
            rw [hrest] at h1
            simp at h1
          have l1 : ((a :: seg) :: s1 :: srest).getLastD ([] : GoStr) = (s1 :: srest).getLastD [] :=
            getLastD_cons_cons _ _ _ _
          have l2 : (seg :: s1 :: srest).getLastD ([] : GoStr) = (s1 :: srest).getLastD [] :=
            getLastD_cons_cons _ _ _ _
          rw [l1, ← l2, ← hrest, ih, suffixAfterLastSlash_cons_of_mem a rest hmem]

/- ================= resolver.go: full resolution and failure ================= -/

/-- ExecutableFormat enumeration from resolver.go. -/
inductive ExecutableFormat
  | formatUnknown
  | formatELF
  | formatPE
  | formatMachO
  deriving DecidableEq

/-- The String method of ExecutableFormat. -/
def ExecutableFormat.FormatString : ExecutableFormat → GoStr
  | .formatELF => gstr "ELF"
  | .formatPE => gstr "PE"
  | .formatMachO => gstr "Mach-O"
  | .formatUnknown => gstr "Unknown"

/-- Association-list model of Go map lookup. -/
def lookupGo {β : Type} : List (GoStr × β) → GoStr → Option β
  | [], _ => none
  | (k, v) :: rest, n => if k = n then some v else lookupGo rest n

/-- The data interpolated into the failure message of
discoverParameterNames (resolver.go, lines 260-276). -/
structure ResolutionError where
  funcName : GoStr
  execPath : GoStr
  format : ExecutableFormat
  indexSize : Nat
  paramCount : Nat
  deriving DecidableEq

/-- The values interpolated into the message, in template order: the
quoted function name, the executable path, the format, the number of
indexed functions, the function name again, the expected parameter
count. -/
def ResolutionError.fields (e : ResolutionError) : List GoStr :=
  [e.funcName, e.execPath, e.format.FormatString,
    (Nat.repr e.indexSize).data, e.funcName, (Nat.repr e.paramCount).data]

/-- Candidate loop of discoverParameterNames: the first candidate
present in the index whose hit logic produces a value wins; candidates
whose entry is too short fall through to the next candidate. -/
def tryCandidates (functionMap : List (GoStr × List GoStr)) (paramCount : Nat) :
    List GoStr → Option (List GoStr)
  | [] => none
  | c :: cs =>
    match lookupGo functionMap c with
    | some allParams =>
      match goResolveHit allParams paramCount with
      | some r => some r
      | none => tryCandidates functionMap paramCount cs
    | none => tryCandidates functionMap paramCount cs

/-- Model of discoverParameterNames (resolver.go, lines 216-277): try
each candidate key in order against the index; when none yields a
value, fail carrying the message data listed in ResolutionError. -/
def discoverParameterNames (functionMap : List (GoStr × List GoStr))
    (execPath : GoStr) (format : ExecutableFormat)
    (funcName : GoStr) (paramCount : Nat) : Except ResolutionError (List GoStr) :=
  match tryCandidates functionMap paramCount (generateFunctionKeyCandidates funcName) with
  | some r => .ok r
  | none => .error ⟨funcName, execPath, format, functionMap.length, paramCount⟩

/- ================= claims C1, C10, C3, C4 ================= -/

/-- Variant of the scan characterization with the absolute index
starting at zero. -/
theorem scanReturnSlots_spec_zero (paramCount : Nat) (l : List GoStr) :
    (scanReturnSlots paramCount 0 l = l ∧
      ∀ i, i < l.length → ¬ (startsWithTildeR (l.getD i []) = true ∧ paramCount / 2 ≤ i)) ∨
    (∃ j, j < l.length ∧ scanReturnSlots paramCount 0 l = l.take j ∧
      (startsWithTildeR (l.getD j []) = true ∧ paramCount / 2 ≤ j) ∧
      ∀ i, i < j → ¬ (startsWithTildeR (l.getD i []) = true ∧ paramCount / 2 ≤ i)) := by
  have h := scanReturnSlots_spec paramCount 0 l
  simpa using h

/-- C1: on an indexed raw list of length at least expectedCount the
resolution takes the first expectedCount entries, the scan stops at the
first entry bearing the tilde-r return-slot prefix at an index at or
past expectedCount / 2, the filtered prefix is returned when its length
equals expectedCount and otherwise the unfiltered first-expectedCount
list is returned when its length equals expectedCount; in particular
raw list a, b, tilde-r0 with expectedCount 2 resolves to a, b and raw
list ctx, tilde-r0, tilde-r1 with expectedCount 1 resolves to ctx. -/
theorem claim_C1_return_slot_filtering (raw : List GoStr) (count : Nat)
    (hlen : count ≤ raw.length) :
    (∃ filtered : List GoStr,
      ((filtered = raw.take count ∧
          ∀ i, i < (raw.take count).length →
            ¬ (startsWithTildeR ((raw.take count).getD i []) = true ∧ count / 2 ≤ i)) ∨
        (∃ j, j < (raw.take count).length ∧ filtered = (raw.take count).take j ∧
          (startsWithTildeR ((raw.take count).getD j []) = true ∧ count / 2 ≤ j) ∧
          ∀ i, i < j →
            ¬ (startsWithTildeR ((raw.take count).getD i []) = true ∧ count / 2 ≤ i))) ∧
      goResolveHit raw count =
        (if filtered.length = count then some filtered
          else if (raw.take count).length = count then some (raw.take count) else none)) ∧
    goResolveHit [gstr "a", gstr "b", gstr "~r0"] 2 = some [gstr "a", gstr "b"] ∧
    goResolveHit [gstr "ctx", gstr "~r0", gstr "~r1"] 1 = some [gstr "ctx"] := by
  refine ⟨⟨scanReturnSlots count 0 (raw.take count), ?_, ?_⟩, by decide, by decide⟩
  · exact scanReturnSlots_spec_zero count (raw.take count)
  · unfold goResolveHit
    rw [if_pos hlen]

/-- Witness for C1 at the first concrete example of the claim. -/
theorem claim_C1_witness :
    2 ≤ ([gstr "a", gstr "b", gstr "~r0"] : List GoStr).length ∧
      goResolveHit [gstr "a", gstr "b", gstr "~r0"] 2 = some [gstr "a", gstr "b"] :=
  ⟨by decide, (claim_C1_return_slot_filtering [gstr "a", gstr "b", gstr "~r0"] 2 (by decide)).2.1⟩

/-- C10: the return-slot filter never changes the returned value: the
per-hit resolution is extensionally the plain take-first-expectedCount
function, and on every hit of sufficient length it returns exactly the
first expectedCount entries of the raw list. -/
theorem claim_C10_resolver_equals_take (raw : List GoStr) (count : Nat) :
    goResolveHit raw count = plainTake raw count ∧
      (count ≤ raw.length → goResolveHit raw count = some (raw.take count)) := by
  refine ⟨goResolveHit_eq_plainTake raw count, ?_⟩
  intro h
  rw [goResolveHit_eq_plainTake raw count]
  unfold plainTake
  rw [if_pos h]

/-- Witness for C10 on a raw list where the filter would drop an entry. -/
theorem claim_C10_witness :
    2 ≤ ([gstr "x", gstr "~r0", gstr "~r1"] : List GoStr).length ∧
      goResolveHit [gstr "x", gstr "~r0", gstr "~r1"] 2 = some [gstr "x", gstr "~r0"] :=
  ⟨by decide, by
    have h := (claim_C10_resolver_equals_take [gstr "x", gstr "~r0", gstr "~r1"] 2).2 (by decide)
    simpa using h⟩

/-- The candidate list always begins with the identifier itself. -/
theorem generateFunctionKeyCandidates_head (s : GoStr) :
    ∃ rest, generateFunctionKeyCandidates s = s :: rest := by
  unfold generateFunctionKeyCandidates
  dsimp only
  split_ifs <;> exact ⟨_, rfl⟩

/-- When the identifier holds a path separator, the suffix after the
last separator is among the candidates. -/
theorem suffix_mem_candidates (s : GoStr) (hmem : '/' ∈ s) :
    suffixAfterLastSlash s ∈ generateFunctionKeyCandidates s := by
  have hne : goSplit '/' s ≠ [] := goSplit_ne_nil '/' s
  have hpos : 0 < (goSplit '/' s).length := List.length_pos.mpr hne
  have hone : (goSplit '/' s).length ≠ 1 := by
    intro h1
    exact (goSplit_length_one '/' s).mp h1 hmem
  have hgt : 1 < (goSplit '/' s).length := by omega
  unfold generateFunctionKeyCandidates
  dsimp only
  rw [if_pos hgt]
  have hlast : (goSplit '/' s).getLastD [] = suffixAfterLastSlash s := goSplit_getLastD s
  split_ifs <;> simp [hlast.symm]

/-- C3: candidate-key generation always yields the identifier as given;
when the identifier holds a path separator it also yields the suffix
after the last separator; for identifiers carrying the pointer-receiver
marker the stripped form is a candidate; and repo/path/pkg.Func yields
exactly the full identifier and pkg.Func. -/
theorem claim_C3_candidate_keys (s : GoStr) :
    s ∈ generateFunctionKeyCandidates s ∧
    ('/' ∈ s → suffixAfterLastSlash s ∈ generateFunctionKeyCandidates s) ∧
    (goContains (gstr "(*") s = true →
      strippedForm s ∈ generateFunctionKeyCandidates s) ∧
    generateFunctionKeyCandidates (gstr "repo/path/pkg.Func") =
      [gstr "repo/path/pkg.Func", gstr "pkg.Func"] := by
  have hhead : s ∈ generateFunctionKeyCandidates s := by
    obtain ⟨rest, hr⟩ := generateFunctionKeyCandidates_head s
    rw [hr]
    exact List.mem_cons_self s rest
  refine ⟨hhead, fun hmem => suffix_mem_candidates s hmem, ?_, by decide⟩
  intro _
  unfold strippedForm
  by_cases hs : '/' ∈ s
  · rw [if_pos hs]
    exact suffix_mem_candidates s hs
  · rw [if_neg hs]
    exact hhead

/-- Witness for C3 at the identifier of the claim example. -/
theorem claim_C3_witness :
    ('/' ∈ gstr "repo/path/pkg.Func") ∧
      suffixAfterLastSlash (gstr "repo/path/pkg.Func") ∈
        generateFunctionKeyCandidates (gstr "repo/path/pkg.Func") :=
  ⟨by decide, (claim_C3_candidate_keys (gstr "repo/path/pkg.Func")).2.1 (by decide)⟩

/-- When every candidate misses or is too short the candidate loop
yields nothing. -/
theorem tryCandidates_none (functionMap : List (GoStr × List GoStr)) (paramCount : Nat)
    (cs : List GoStr)
    (h : ∀ c ∈ cs, ∀ ps, lookupGo functionMap c = some ps → ps.length < paramCount) :
    tryCandidates functionMap paramCount cs = none := by
  induction cs with
  | nil => rfl
  | cons c rest ih =>
    unfold tryCandidates
    cases hlook : lookupGo functionMap c with
    | none => exact ih (fun x hx => h x (List.mem_cons_of_mem c hx))
    | some ps =>
      dsimp only
      have hshort : ps.length < paramCount := h c (List.mem_cons_self c rest) ps hlook
      have hres : goResolveHit ps paramCount = none := by
        rw [goResolveHit_eq_plainTake]
        unfold plainTake
        rw [if_neg (by omega)]
      rw [hres]
      exact ih (fun x hx => h x (List.mem_cons_of_mem c hx))

/-- C4 as written fails on the code: with an empty index and identifier
a/b.f the resolution fails and the candidate b.f was generated, yet b.f
is not among the values interpolated into the error message. -/
theorem claim_C4_counterexample :
    discoverParameterNames [] (gstr "exe") .formatELF (gstr "a/b.f") 1 =
      .error ⟨gstr "a/b.f", gstr "exe", .formatELF, 0, 1⟩ ∧
    gstr "b.f" ∈ generateFunctionKeyCandidates (gstr "a/b.f") ∧
    gstr "b.f" ∉
      (ResolutionError.fields ⟨gstr "a/b.f", gstr "exe", .formatELF, 0, 1⟩) := by
  refine ⟨rfl, by decide, by decide⟩

/-- C4 amended: whenever no candidate key matches (or every match is
shorter than the expected count), resolution fails with an error that
carries the function identifier, the executable path and format, the
expected parameter count and the total number of indexed functions;
the candidate keys themselves are not part of the message data. -/
theorem claim_C4_resolution_failure (functionMap : List (GoStr × List GoStr))
    (execPath : GoStr) (format : ExecutableFormat) (funcName : GoStr) (paramCount : Nat)
    (hmiss : ∀ c ∈ generateFunctionKeyCandidates funcName,
      ∀ ps, lookupGo functionMap c = some ps → ps.length < paramCount) :
    discoverParameterNames functionMap execPath format funcName paramCount =
      .error ⟨funcName, execPath, format, functionMap.length, paramCount⟩ ∧
    funcName ∈
      (ResolutionError.fields ⟨funcName, execPath, format, functionMap.length, paramCount⟩) ∧
    (Nat.repr functionMap.length).data ∈
      (ResolutionError.fields ⟨funcName, execPath, format, functionMap.length, paramCount⟩) := by
  refine ⟨?_, by simp [ResolutionError.fields], by simp [ResolutionError.fields]⟩
  unfold discoverParameterNames
  rw [tryCandidates_none functionMap paramCount _ hmiss]

/-- Witness for C4 at the counterexample input. -/
theorem claim_C4_witness :
    discoverParameterNames [] (gstr "exe") .formatELF (gstr "a/b.f") 1 =
      .error ⟨gstr "a/b.f", gstr "exe", .formatELF, 0, 1⟩ :=
  (claim_C4_resolution_failure [] (gstr "exe") .formatELF (gstr "a/b.f") 1
    (by intro c hc ps hps; simp [lookupGo] at hps)).1

/- ================= function.go: value and type universe ================= -/

/-- A small closed universe of runtime types sufficient for the
invocation-layer properties: strings, integers, booleans, the context
interface type, and the invalid type of a nil interface value. -/
inductive GoType
  | tString
  | tInt
  | tBool
  | tContext
  | tInvalid
  deriving DecidableEq

/-- Runtime values of the universe; vNil models a nil interface. -/
inductive GoVal
  | vString (s : GoStr)
  | vInt (n : Int)
  | vBool (b : Bool)
  | vContext (id : Nat)
  | vNil
  deriving DecidableEq

/-- The runtime type of a value. -/
def typeOf : GoVal → GoType
  | .vString _ => .tString
  | .vInt _ => .tInt
  | .vBool _ => .tBool
  | .vContext _ => .tContext
  | .vNil => .tInvalid

/-- A synthesized struct field: name, type, tag. -/
structure StructField where
  name : GoStr
  type : GoType
  tag : GoStr
  deriving DecidableEq

/-- The failure conditions of the invocation layer, carrying exactly
the data interpolated into the corresponding fmt.Errorf messages. -/
inductive CallError
  | wrongArgCount (expected got : Nat)
  | assignMismatch (pos : Nat) (paramName : GoStr) (actual expected : GoType)
  | missingParams (missing : List GoStr) (funcName : GoStr) (paramNames : List GoStr)
  | paramAssignMismatch (paramName : GoStr) (actual expected : GoType)
  | notEnoughArgs (expectedNonContext got : Nat)
  | structTypeMismatch (expected got : List StructField)
  deriving DecidableEq

/-- The Function descriptor of function.go: the wrapped callable with
its declared parameter names and types and the runtime function name.
The callable is modelled as a total map from argument lists to result
lists. -/
structure Function where
  fn : List GoVal → List GoVal
  paramNames : List GoStr
  paramTypes : List GoType
  funcName : GoStr

/-- The validation loop of Call: the first argument whose runtime type
is not assignable to the declared type is reported with its position,
the parameter name, and both types.  The final catch-all corresponds
to an index-out-of-range panic in Go and is never reached for
well-formed descriptors. -/
def firstMismatch : Nat → List GoStr → List GoType → List GoVal → Option CallError
  | _, _, _, [] => none
  | i, n :: ns, ty :: tys, v :: vs =>
    if typeOf v = ty then firstMismatch (i + 1) ns tys vs
    else some (.assignMismatch i n (typeOf v) ty)
  | _, _, _, _ :: _ => none

/-- Model of Call (function.go, lines 224-245): arity check, per-slot
assignability check, then the underlying call. -/
def Function.Call (t : Function) (args : List GoVal) : Except CallError (List GoVal) :=
  if args.length ≠ t.paramTypes.length then
    .error (.wrongArgCount t.paramTypes.length args.length)
  else
    match firstMismatch 0 t.paramNames t.paramTypes args with
    | some e => .error e
    | none => .ok (t.fn args)

/-- The reordering loop of MapToArgs: values looked up by declared
name, in declared order, each checked against the declared type. -/
def buildMapArgs (argMap : List (GoStr × GoVal)) :
    List GoStr → List GoType → Except CallError (List GoVal)
  | [], _ => .ok []
  | _ :: _, [] => .ok []
  | n :: ns, ty :: tys =>
    let v := (lookupGo argMap n).getD .vNil
    if typeOf v = ty then
      (buildMapArgs argMap ns tys).map (fun rest => v :: rest)
    else .error (.paramAssignMismatch n (typeOf v) ty)

/-- Model of MapToArgs (function.go, lines 391-428): size check,
missing-name check in declared order, then values reordered into
declared order under the same type check. -/
def Function.MapToArgs (t : Function) (argMap : List (GoStr × GoVal)) :
    Except CallError (List GoVal) :=
  if argMap.length ≠ t.paramTypes.length then
    .error (.wrongArgCount t.paramTypes.length argMap.length)
  else
    let missing := t.paramNames.filter (fun n => (lookupGo argMap n).isNone)
    if missing = [] then buildMapArgs argMap t.paramNames t.paramTypes
    else .error (.missingParams missing t.funcName t.paramNames)

/-- Model of CallWithMap (function.go, lines 375-387): convert the map
and call the underlying function directly. -/
def Function.CallWithMap (t : Function) (argMap : List (GoStr × GoVal)) :
    Except CallError (List GoVal) :=
  match t.MapToArgs argMap with
  | .ok args => .ok (t.fn args)
  | .error e => .error e

/-- The loop of GetContextPositions (function.go, lines 476-487). -/
def contextPositionsAux : Nat → List GoType → List Nat
  | _, [] => []
  | i, ty :: tys =>
    if ty = .tContext then i :: contextPositionsAux (i + 1) tys
    else contextPositionsAux (i + 1) tys

/-- Parameter indices whose declared type is context.Context. -/
def Function.GetContextPositions (t : Function) : List Nat :=
  contextPositionsAux 0 t.paramTypes

/-- The context-splicing loop of CallWithContext: walk the parameter
positions, placing the context at recorded context positions and
drawing the next supplied argument otherwise; none models the
not-enough-arguments early return. -/
def buildFullArgs (ctx : GoVal) (positions : List Nat) :
    Nat → List GoType → List GoVal → Option (List GoVal)
  | _, [], _ => some []
  | i, _ :: tys, args =>
    if i ∈ positions then
      (buildFullArgs ctx positions (i + 1) tys args).map (fun rest => ctx :: rest)
    else
      match args with
      | [] => none
      | a :: rest =>
        (buildFullArgs ctx positions (i + 1) tys rest).map (fun full => a :: full)

/-- Model of CallWithContext (function.go, lines 305-330): with no
context positions an ordinary call; otherwise the context value is
spliced into every context position, supplied arguments fill the
remaining positions in order, and exhausting the supplied list fails
with the expected non-context count. -/
def Function.CallWithContext (t : Function) (ctx : GoVal) (args : List GoVal) :
    Except CallError (List GoVal) :=
  let positions := t.GetContextPositions
  if positions = [] then t.Call args
  else
    match buildFullArgs ctx positions 0 t.paramTypes args with
    | none => .error (.notEnoughArgs (t.paramTypes.length - positions.length) args.length)
    | some fullArgs => t.Call fullArgs

/-- Spec-side splicing: the context value at every context-typed
position, supplied values in order at the remaining positions. -/
def splice (ctx : GoVal) : List GoType → List GoVal → List GoVal
  | [], _ => []
  | ty :: tys, args =>
    if ty = .tContext then ctx :: splice ctx tys args
    else
      match args with
      | [] => []
      | a :: rest => a :: splice ctx tys rest

/-- The number of non-context parameter types. -/
def nonCtxCount (types : List GoType) : Nat :=
  (types.filter (fun ty => decide (ty ≠ GoType.tContext))).length

/- ================= context splicing lemmas ================= -/

theorem nonCtxCount_cons_ctx (tys : List GoType) :
    nonCtxCount (.tContext :: tys) = nonCtxCount tys := by
  unfold nonCtxCount
  rw [List.filter_cons]
  simp

theorem nonCtxCount_cons_non (ty : GoType) (tys : List GoType) (h : ty ≠ .tContext) :
    nonCtxCount (ty :: tys) = nonCtxCount tys + 1 := by
  unfold nonCtxCount
  rw [List.filter_cons]
  simp [h]

theorem contextPositionsAux_bound (types : List GoType) :
    ∀ k m, m ∈ contextPositionsAux k types → k ≤ m := by
  induction types with
  | nil => intro k m h; simp [contextPositionsAux] at h
  | cons ty tys ih =>
    intro k m h
    unfold contextPositionsAux at h
    by_cases hty : ty = .tContext
    · rw [if_pos hty] at h
      rcases List.mem_cons.mp h with rfl | h2
      · exact le_refl m
      · exact Nat.le_of_succ_le (ih (k + 1) m h2)
    · rw [if_neg hty] at h
      exact Nat.le_of_succ_le (ih (k + 1) m h)

theorem mem_contextPositionsAux (types : List GoType) :
    ∀ k i, (k + i ∈ contextPositionsAux k types ↔ types.get? i = some .tContext) := by
  induction types with
  | nil => intro k i; simp [contextPositionsAux]
  | cons ty tys ih =>
    intro k i
    unfold contextPositionsAux
    by_cases hty : ty = .tContext
    · rw [if_pos hty]
      cases i with
      | zero =>
        simp only [Nat.add_zero, List.get?]
        constructor
        · intro _; rw [hty]
        · intro _; exact List.mem_cons_self k _
      | succ i =>
        constructor
        · intro h
          rcases List.mem_cons.mp h with h1 | h2
          · omega
          · have : (k + 1) + i ∈ contextPositionsAux (k + 1) tys := by
              have : k + (i + 1) = (k + 1) + i := by omega
              rwa [this] at h2
            exact (ih (k + 1) i).mp this
        · intro h
          have h2 : (k + 1) + i ∈ contextPositionsAux (k + 1) tys := (ih (k + 1) i).mpr h
          refine List.mem_cons_of_mem k ?_
          have : (k + 1) + i = k + (i + 1) := by omega
          rwa [this] at h2
    · rw [if_neg hty]
      cases i with
      | zero =>
        simp only [Nat.add_zero, List.get?]
        constructor
        · intro h
          have := contextPositionsAux_bound tys (k + 1) k h
          omega
        · intro h
          exact absurd (Option.some_inj.mp h) hty
      | succ i =>
        have heq : k + (i + 1) = (k + 1) + i := by omega
        rw [heq]
        exact ih (k + 1) i

/-- Membership in the recorded context positions is exactly having the
context type at that index. -/
theorem mem_getContextPositions (t : Function) (i : Nat) :
    i ∈ t.GetContextPositions ↔ t.paramTypes.get? i = some .tContext := by
  have h := mem_contextPositionsAux t.paramTypes 0 i
  simpa using h

/-- The splicing loop succeeds exactly when enough non-context
arguments are supplied, and then computes the spec-side splice. -/
theorem buildFullArgs_spec (ctx : GoVal) (P : List Nat) :
    ∀ (types : List GoType) (args : List GoVal) (i : Nat),
      (∀ j, ((i + j ∈ P) ↔ types.get? j = some .tContext)) →
      buildFullArgs ctx P i types args =
        if nonCtxCount types ≤ args.length then some (splice ctx types args) else none := by
  intro types
  induction types with
  | nil =>
    intro args i _
    simp [buildFullArgs, nonCtxCount, splice]
  | cons ty tys ih =>
    intro args i h
    have h0 : (i ∈ P) ↔ ty = .tContext := by
      have := h 0
      simpa using this
    have h' : ∀ j, ((i + 1 + j ∈ P) ↔ tys.get? j = some .tContext) := by
      intro j
      have := h (j + 1)
      have heq : i + (j + 1) = i + 1 + j := by omega
      rw [heq] at this
      simpa using this
    unfold buildFullArgs
    by_cases hty : ty = .tContext
    · rw [if_pos (h0.mpr hty)]
      rw [ih args (i + 1) h']
      rw [hty, nonCtxCount_cons_ctx]
      by_cases hc : nonCtxCount tys ≤ args.length
      · rw [if_pos hc, if_pos hc]
        simp [splice]
      · rw [if_neg hc, if_neg hc]
        rfl
    · rw [if_neg (fun hp => hty (h0.mp hp))]
      cases args with
      | nil =>
        rw [nonCtxCount_cons_non ty tys hty]
        rw [if_neg (by simp)]
      | cons a rest =>
        dsimp only
        rw [ih rest (i + 1) h']
        rw [nonCtxCount_cons_non ty tys hty]
        by_cases hc : nonCtxCount tys ≤ rest.length
        · rw [if_pos hc, if_pos (by simpa using hc)]
          simp [splice, hty]
        · rw [if_neg hc, if_neg (by simpa using hc)]
          rfl

/-- The splicing loop of CallWithContext, instantiated at the
descriptor level. -/
theorem buildFullArgs_eq (t : Function) (ctx : GoVal) (args : List GoVal) :
    buildFullArgs ctx t.GetContextPositions 0 t.paramTypes args =
      if nonCtxCount t.paramTypes ≤ args.length
        then some (splice ctx t.paramTypes args) else none := by
  refine buildFullArgs_spec ctx t.GetContextPositions t.paramTypes args 0 ?_
  intro j
  have := mem_getContextPositions t j
  simpa using this

theorem contextPositionsAux_length (types : List GoType) :
    ∀ k, (contextPositionsAux k types).length =
      (types.filter (fun ty => decide (ty = GoType.tContext))).length := by
  induction types with
  | nil => intro k; rfl
  | cons ty tys ih =>
    intro k
    unfold contextPositionsAux
    rw [List.filter_cons]
    by_cases hty : ty = .tContext
    · rw [if_pos hty]
      simp [hty, ih (k + 1)]
    · rw [if_neg hty]
      simp [hty, ih (k + 1)]

theorem nonCtxCount_add_ctx (l : List GoType) :
    (l.filter (fun ty => decide (ty = GoType.tContext))).length + nonCtxCount l = l.length := by
  induction l with
  | nil => rfl
  | cons ty tys ih =>
    rw [List.filter_cons]
    by_cases hty : ty = GoType.tContext
    · subst hty
      rw [nonCtxCount_cons_ctx, if_pos (by simp)]
      simp only [List.length_cons]
      omega
    · rw [nonCtxCount_cons_non ty tys hty, if_neg (by simp [hty])]
      simp only [List.length_cons]
      omega

/-- The declared arity minus the number of context positions is the
number of non-context parameters. -/
theorem paramTypes_sub_positions (t : Function) :
    t.paramTypes.length - t.GetContextPositions.length = nonCtxCount t.paramTypes := by
  have hpart := nonCtxCount_add_ctx t.paramTypes
  have hlen := contextPositionsAux_length t.paramTypes 0
  unfold Function.GetContextPositions
  omega

/-- In the spliced list the context value occupies every context
position. -/
theorem splice_get_ctx (ctx : GoVal) :
    ∀ (types : List GoType) (args : List GoVal) (i : Nat),
      nonCtxCount types ≤ args.length →
      types.get? i = some .tContext →
      (splice ctx types args).get? i = some ctx := by
  intro types
  induction types with
  | nil => intro args i _ hget; simp at hget
  | cons ty tys ih =>
    intro args i hle hget
    cases i with
    | zero =>
      have hty : ty = .tContext := by simpa using hget
      subst hty
      simp [splice]
    | succ i =>
      have hget2 : tys.get? i = some .tContext := by simpa using hget
      by_cases hty : ty = .tContext
      · subst hty
        rw [nonCtxCount_cons_ctx] at hle
        have hs : splice ctx (GoType.tContext :: tys) args = ctx :: splice ctx tys args := by
          simp [splice]
        rw [hs, List.get?_cons_succ]
        exact ih args i hle hget2
      · rw [nonCtxCount_cons_non ty tys hty] at hle
        cases args with
        | nil => simp at hle
        | cons a rest =>
          have hs : splice ctx (ty :: tys) (a :: rest) = a :: splice ctx tys rest := by
            simp [splice, hty]
          rw [hs, List.get?_cons_succ]
          exact ih rest i (by simp only [List.length_cons] at hle; omega) hget2

/-- In the spliced list the j-th supplied value occupies the j-th
non-context position, preserving the relative order of the supplied
arguments. -/
theorem splice_get_nonctx (ctx : GoVal) :
    ∀ (types : List GoType) (args : List GoVal) (i : Nat) (ty : GoType),
      nonCtxCount types ≤ args.length →
      types.get? i = some ty → ty ≠ .tContext →
      (splice ctx types args).get? i = args.get? (nonCtxCount (types.take i)) := by
  intro types
  induction types with
  | nil => intro args i ty _ hget _; simp at hget
  | cons ty0 tys ih =>
    intro args i ty hle hget hty
    cases i with
    | zero =>
      have h0 : ty0 = ty := by simpa using hget
      have hty0 : ty0 ≠ GoType.tContext := h0 ▸ hty
      rw [nonCtxCount_cons_non ty0 tys hty0] at hle
      cases args with
      | nil => simp at hle
      | cons a rest =>
        have hs : splice ctx (ty0 :: tys) (a :: rest) = a :: splice ctx tys rest := by
          simp [splice, hty0]
        rw [hs]
        rfl
    | succ i =>
      have hget2 : tys.get? i = some ty := by simpa using hget
      by_cases hty0 : ty0 = GoType.tContext
      · subst hty0
        rw [nonCtxCount_cons_ctx] at hle
        rw [List.take_succ_cons, nonCtxCount_cons_ctx]
        have hs : splice ctx (GoType.tContext :: tys) args = ctx :: splice ctx tys args := by
          simp [splice]
        rw [hs, List.get?_cons_succ]
        exact ih args i ty hle hget2 hty
      · rw [nonCtxCount_cons_non ty0 tys hty0] at hle
        cases args with
        | nil => simp at hle
        | cons a rest =>
          rw [List.take_succ_cons, nonCtxCount_cons_non ty0 _ hty0]
          have hs : splice ctx (ty0 :: tys) (a :: rest) = a :: splice ctx tys rest := by
            simp [splice, hty0]
          rw [hs, List.get?_cons_succ, List.get?_cons_succ]
          exact ih rest i ty (by simp only [List.length_cons] at hle; omega) hget2 hty

/-- Supplying fewer non-context arguments than non-context parameters
fails with the expected non-context count. -/
theorem callWithContext_too_few (t : Function) (ctx : GoVal) (args : List GoVal)
    (hctx : t.GetContextPositions ≠ [])
    (hfew : args.length < nonCtxCount t.paramTypes) :
    t.CallWithContext ctx args =
      .error (.notEnoughArgs (t.paramTypes.length - t.GetContextPositions.length)
        args.length) := by
  have hbuild := buildFullArgs_eq t ctx args
  rw [if_neg (by omega)] at hbuild
  unfold Function.CallWithContext
  dsimp only
  rw [if_neg hctx, hbuild]

/- ================= claims C2, C7 ================= -/

/-- A demonstration descriptor with one context parameter. -/
def ctxDemo : Function where
  fn := fun vs => vs
  paramNames := [gstr "ctx", gstr "id"]
  paramTypes := [.tContext, .tInt]
  funcName := gstr "main.ctxDemo"

/-- C2 fails as stated: the descriptor has one non-context parameter,
two non-context arguments are supplied, and the context-qualified call
still succeeds, invoking the callable on the spliced list and silently
ignoring the surplus argument. -/
theorem claim_C2_counterexample :
    ctxDemo.paramTypes.length - ctxDemo.GetContextPositions.length = 1 ∧
    ([GoVal.vInt 1, GoVal.vInt 2] : List GoVal).length ≠ 1 ∧
    ctxDemo.CallWithContext (GoVal.vContext 0) [GoVal.vInt 1, GoVal.vInt 2] =
      .ok (ctxDemo.fn [GoVal.vContext 0, GoVal.vInt 1]) := by
  refine ⟨rfl, by decide, rfl⟩

/-- C2 amended: with at least one context parameter, supplying fewer
non-context arguments than non-context parameters fails with an error
reporting the expected non-context count and the callable is not
invoked (the outcome does not depend on the wrapped callable); surplus
arguments are silently ignored rather than rejected. -/
theorem claim_C2_context_arity (t : Function) (ctx : GoVal) (args : List GoVal)
    (g : List GoVal → List GoVal)
    (hctx : t.GetContextPositions ≠ [])
    (hfew : args.length < nonCtxCount t.paramTypes) :
    t.CallWithContext ctx args =
      .error (.notEnoughArgs (t.paramTypes.length - t.GetContextPositions.length)
        args.length) ∧
    t.paramTypes.length - t.GetContextPositions.length = nonCtxCount t.paramTypes ∧
    ({ t with fn := g } : Function).CallWithContext ctx args =
      .error (.notEnoughArgs (t.paramTypes.length - t.GetContextPositions.length)
        args.length) :=
  ⟨callWithContext_too_few t ctx args hctx hfew,
    paramTypes_sub_positions t,
    callWithContext_too_few { t with fn := g } ctx args hctx hfew⟩

/-- Witness for C2 at a concrete too-few-arguments invocation. -/
theorem claim_C2_witness :
    ctxDemo.GetContextPositions ≠ [] ∧
    (([] : List GoVal).length < nonCtxCount ctxDemo.paramTypes) ∧
    ctxDemo.CallWithContext (GoVal.vContext 0) [] =
      .error (.notEnoughArgs
        (ctxDemo.paramTypes.length - ctxDemo.GetContextPositions.length) 0) :=
  ⟨by decide, by decide,
    (claim_C2_context_arity ctxDemo (GoVal.vContext 0) [] (fun vs => vs)
      (by decide) (by decide)).1⟩

/-- A demonstration descriptor with context parameters at positions 0
and 2. -/
def spliceDemo : Function where
  fn := fun vs => vs
  paramNames := [gstr "ctx1", gstr "id", gstr "ctx2", gstr "name"]
  paramTypes := [.tContext, .tInt, .tContext, .tString]
  funcName := gstr "main.spliceDemo"

/-- C7: a context-qualified invocation supplying exactly as many values
as there are non-context parameters dispatches on the spliced list: the
context value sits at every context position and the j-th supplied
value sits at the j-th non-context position in relative order; with
context positions 0 and 2 and two supplied values, the values land at
positions 1 and 3 and the context at 0 and 2. -/
theorem claim_C7_context_splicing (t : Function) (ctx : GoVal) (args : List GoVal)
    (hctx : t.GetContextPositions ≠ [])
    (hcount : args.length = nonCtxCount t.paramTypes) :
    t.CallWithContext ctx args = t.Call (splice ctx t.paramTypes args) ∧
    (∀ i, t.paramTypes.get? i = some .tContext →
      (splice ctx t.paramTypes args).get? i = some ctx) ∧
    (∀ i ty, t.paramTypes.get? i = some ty → ty ≠ .tContext →
      (splice ctx t.paramTypes args).get? i =
        args.get? (nonCtxCount (t.paramTypes.take i))) ∧
    splice ctx [.tContext, .tInt, .tContext, .tString]
        [GoVal.vInt 7, GoVal.vString (gstr "x")] =
      [ctx, GoVal.vInt 7, ctx, GoVal.vString (gstr "x")] := by
  have hle : nonCtxCount t.paramTypes ≤ args.length := by omega
  refine ⟨?_, fun i hget => splice_get_ctx ctx t.paramTypes args i hle hget,
    fun i ty hget hty => splice_get_nonctx ctx t.paramTypes args i ty hle hget hty, rfl⟩
  have hbuild := buildFullArgs_eq t ctx args
  rw [if_pos hle] at hbuild
  unfold Function.CallWithContext
  dsimp only
  rw [if_neg hctx, hbuild]

/-- Witness for C7 at the descriptor with context positions 0 and 2. -/
theorem claim_C7_witness :
    spliceDemo.GetContextPositions ≠ [] ∧
    ([GoVal.vInt 7, GoVal.vString (gstr "x")] : List GoVal).length =
      nonCtxCount spliceDemo.paramTypes ∧
    spliceDemo.CallWithContext (GoVal.vContext 9) [GoVal.vInt 7, GoVal.vString (gstr "x")] =
      spliceDemo.Call (splice (GoVal.vContext 9) spliceDemo.paramTypes
        [GoVal.vInt 7, GoVal.vString (gstr "x")]) :=
  ⟨by decide, by decide,
    (claim_C7_context_splicing spliceDemo (GoVal.vContext 9)
      [GoVal.vInt 7, GoVal.vString (gstr "x")] (by decide) (by decide)).1⟩

/- ================= claims C6, C5 ================= -/

/-- The validation loop accepts argument lists whose runtime types
match the declared types pointwise. -/
theorem firstMismatch_none :
    ∀ (k : Nat) (ns : List GoStr) (tys : List GoType) (vs : List GoVal),
      List.Forall₂ (fun v ty => typeOf v = ty) vs tys →
      firstMismatch k ns tys vs = none := by
  intro k ns tys vs h
  induction h generalizing k ns with
  | nil => cases ns <;> rfl
  | @cons v ty vs tys hv hrest ih =>
    cases ns with
    | nil => rfl
    | cons n ns =>
      show (if typeOf v = ty then firstMismatch (k + 1) ns tys vs
        else some (.assignMismatch k n (typeOf v) ty)) = none
      rw [if_pos hv]
      exact ih (k + 1) ns

/-- The validation loop reports the first mismatching position with
the parameter name there and both types. -/
theorem firstMismatch_break :
    ∀ (vs : List GoVal) (ns : List GoStr) (tys : List GoType) (k : Nat),
      ns.length = tys.length → vs.length = tys.length →
      ¬ List.Forall₂ (fun v ty => typeOf v = ty) vs tys →
      ∃ i, i < vs.length ∧
        (∀ j, j < i → typeOf (vs.getD j .vNil) = tys.getD j .tInvalid) ∧
        typeOf (vs.getD i .vNil) ≠ tys.getD i .tInvalid ∧
        firstMismatch k ns tys vs = some (.assignMismatch (k + i) (ns.getD i [])
          (typeOf (vs.getD i .vNil)) (tys.getD i .tInvalid)) := by
  intro vs
  induction vs with
  | nil =>
    intro ns tys k hns hvs hbad
    cases tys with
    | nil => exact absurd List.Forall₂.nil hbad
    | cons ty tys => simp at hvs
  | cons v vs ih =>
    intro ns tys k hns hvs hbad
    cases tys with
    | nil => simp at hvs
    | cons ty tys =>
      cases ns with
      | nil => simp at hns
      | cons n ns =>
        by_cases hv : typeOf v = ty
        · have hbad2 : ¬ List.Forall₂ (fun v ty => typeOf v = ty) vs tys := by
            intro hf
            exact hbad (List.Forall₂.cons hv hf)
          obtain ⟨i, hi, hpre, hmis, heq⟩ :=
            ih ns tys (k + 1) (by simpa using hns) (by simpa using hvs) hbad2
          refine ⟨i + 1, by simpa using hi, ?_, by simpa using hmis, ?_⟩
          · intro j hj
            cases j with
            | zero => simpa using hv
            | succ j => simpa using hpre j (by omega)
          · have hidx : k + (i + 1) = (k + 1) + i := by omega
            rw [hidx]
            show (if typeOf v = ty then firstMismatch (k + 1) ns tys vs
              else some (.assignMismatch k n (typeOf v) ty)) = _
            rw [if_pos hv]
            exact heq
        · refine ⟨0, by simp, ?_, by simpa using hv, ?_⟩
          · intro j hj; omega
          · show (if typeOf v = ty then firstMismatch (k + 1) ns tys vs
              else some (.assignMismatch k n (typeOf v) ty)) = _
            rw [if_neg hv]
            simp

/-- C6: positional invocation with a wrong argument count fails with
the wrong-number-of-arguments condition and the outcome does not
depend on the wrapped callable; with the declared arity and pointwise
assignable arguments it returns exactly the direct call result; a
type mismatch is reported with its first offending position, the
parameter name there, and the actual and expected types. -/
theorem claim_C6_positional_invocation (t : Function) (args : List GoVal) :
    (args.length ≠ t.paramTypes.length →
      (t.Call args = .error (.wrongArgCount t.paramTypes.length args.length) ∧
        ∀ g : List GoVal → List GoVal,
          ({ t with fn := g } : Function).Call args =
            .error (.wrongArgCount t.paramTypes.length args.length))) ∧
    (List.Forall₂ (fun v ty => typeOf v = ty) args t.paramTypes →
      t.Call args = .ok (t.fn args)) ∧
    (t.paramNames.length = t.paramTypes.length →
      args.length = t.paramTypes.length →
      ¬ List.Forall₂ (fun v ty => typeOf v = ty) args t.paramTypes →
      ∃ i, i < args.length ∧
        typeOf (args.getD i .vNil) ≠ t.paramTypes.getD i .tInvalid ∧
        (∀ j, j < i → typeOf (args.getD j .vNil) = t.paramTypes.getD j .tInvalid) ∧
        t.Call args = .error (.assignMismatch i (t.paramNames.getD i [])
          (typeOf (args.getD i .vNil)) (t.paramTypes.getD i .tInvalid))) := by
  refine ⟨?_, ?_, ?_⟩
  · intro hne
    constructor
    · unfold Function.Call; rw [if_pos hne]
    · intro g; unfold Function.Call; rw [if_pos hne]
  · intro hmatch
    have hlen : args.length = t.paramTypes.length := hmatch.length_eq
    unfold Function.Call
    rw [if_neg (by omega)]
    rw [firstMismatch_none 0 t.paramNames t.paramTypes args hmatch]
  · intro hwf hlen hbad
    obtain ⟨i, hi, hpre, hmis, heq⟩ :=
      firstMismatch_break args t.paramNames t.paramTypes 0 (by omega) hlen hbad
    refine ⟨i, hi, hmis, hpre, ?_⟩
    unfold Function.Call
    rw [if_neg (by omega)]
    rw [heq]
    simp

/-- A demonstration descriptor with a string and an integer
parameter. -/
def mapDemo : Function where
  fn := fun vs => vs
  paramNames := [gstr "name", gstr "age"]
  paramTypes := [.tString, .tInt]
  funcName := gstr "main.mapDemo"

/-- Witness for C6 at a correct positional call. -/
theorem claim_C6_witness :
    mapDemo.Call [GoVal.vString (gstr "Alice"), GoVal.vInt 30] =
      .ok (mapDemo.fn [GoVal.vString (gstr "Alice"), GoVal.vInt 30]) :=
  (claim_C6_positional_invocation mapDemo
      [GoVal.vString (gstr "Alice"), GoVal.vInt 30]).2.1
    (List.Forall₂.cons rfl (List.Forall₂.cons rfl List.Forall₂.nil))

/-- Lookup in the association-list model succeeds exactly for present
keys. -/
theorem lookupGo_isSome_iff {β : Type} (m : List (GoStr × β)) (n : GoStr) :
    (lookupGo m n).isSome = true ↔ n ∈ m.map Prod.fst := by
  induction m with
  | nil =>
    constructor
    · intro h
      exact absurd h Bool.false_ne_true
    · intro h
      exact absurd h (List.not_mem_nil n)
  | cons p rest ih =>
    obtain ⟨k, v⟩ := p
    unfold lookupGo
    by_cases hk : k = n
    · subst hk
      rw [if_pos rfl]
      simp only [List.map_cons, List.mem_cons]
      constructor
      · intro _
        exact Or.inl trivial
      · intro _
        rfl
    · rw [if_neg hk]
      simp only [List.map_cons, List.mem_cons]
      rw [ih]
      constructor
      · intro h; exact Or.inr h
      · intro h
        rcases h with h | h
        · exact absurd h.symm hk
        · exact h

/-- The reorder loop yields the looked-up values in declared order
when every value matches its declared type. -/
theorem buildMapArgs_ok (m : List (GoStr × GoVal)) :
    ∀ (ns : List GoStr) (tys : List GoType),
      List.Forall₂ (fun n ty => typeOf ((lookupGo m n).getD .vNil) = ty) ns tys →
      buildMapArgs m ns tys = .ok (ns.map (fun n => (lookupGo m n).getD .vNil)) := by
  intro ns tys h
  induction h with
  | nil => rfl
  | @cons n ty ns tys hn hrest ih =>
    unfold buildMapArgs
    dsimp only
    rw [if_pos hn, ih]
    rfl

/-- C5: named-mapping invocation with a key set equal to the declared
parameter-name set and assignable values is order-independent and
equal to the positional invocation with the values arranged in
declared parameter order; for parameters name and age, the mapping
age-30, name-Alice produces the positional call Alice, 30. -/
theorem claim_C5_named_mapping (t : Function) (m : List (GoStr × GoVal))
    (hperm : (m.map Prod.fst).Perm t.paramNames)
    (htypes : List.Forall₂ (fun n ty => typeOf ((lookupGo m n).getD .vNil) = ty)
      t.paramNames t.paramTypes) :
    t.CallWithMap m = t.Call (t.paramNames.map (fun n => (lookupGo m n).getD .vNil)) ∧
    t.CallWithMap m = .ok (t.fn (t.paramNames.map (fun n => (lookupGo m n).getD .vNil))) ∧
    (∀ f : List GoVal → List GoVal,
      (Function.mk f [gstr "name", gstr "age"] [.tString, .tInt]
          (gstr "main.example")).CallWithMap
          [(gstr "age", GoVal.vInt 30), (gstr "name", GoVal.vString (gstr "Alice"))] =
        (Function.mk f [gstr "name", gstr "age"] [.tString, .tInt]
          (gstr "main.example")).Call
          [GoVal.vString (gstr "Alice"), GoVal.vInt 30]) := by
  have hnames : t.paramNames.length = t.paramTypes.length := htypes.length_eq
  have hmlen : m.length = t.paramTypes.length := by
    have h1 : (m.map Prod.fst).length = t.paramNames.length := hperm.length_eq
    simpa using h1.trans hnames
  have hmiss : t.paramNames.filter (fun n => (lookupGo m n).isNone) = [] := by
    rw [List.filter_eq_nil_iff]
    intro n hn
    have hmem : n ∈ m.map Prod.fst := (hperm.mem_iff).mpr hn
    have hsome := (lookupGo_isSome_iff m n).mpr hmem
    intro hnone
    rw [Option.isNone_iff_eq_none] at hnone
    rw [hnone] at hsome
    simp at hsome
  have hmap : t.MapToArgs m =
      .ok (t.paramNames.map (fun n => (lookupGo m n).getD .vNil)) := by
    unfold Function.MapToArgs
    rw [if_neg (by omega)]
    dsimp only
    rw [hmiss, if_pos rfl]
    exact buildMapArgs_ok m t.paramNames t.paramTypes htypes
  have hvals : List.Forall₂ (fun v ty => typeOf v = ty)
      (t.paramNames.map fun n => (lookupGo m n).getD .vNil) t.paramTypes := by
    rw [List.forall₂_map_left_iff]
    exact htypes
  have hcw : t.CallWithMap m =
      .ok (t.fn (t.paramNames.map (fun n => (lookupGo m n).getD .vNil))) := by
    unfold Function.CallWithMap
    rw [hmap]
  have hcall : t.Call (t.paramNames.map (fun n => (lookupGo m n).getD .vNil)) =
      .ok (t.fn (t.paramNames.map (fun n => (lookupGo m n).getD .vNil))) := by
    unfold Function.Call
    rw [if_neg (by rw [List.length_map]; omega)]
    rw [firstMismatch_none 0 t.paramNames t.paramTypes _ hvals]
  refine ⟨hcw.trans hcall.symm, hcw, fun f => rfl⟩

/-- Witness for C5 at the mapping of the claim example. -/
theorem claim_C5_witness :
    (([(gstr "age", GoVal.vInt 30),
        (gstr "name", GoVal.vString (gstr "Alice"))].map Prod.fst).Perm
      mapDemo.paramNames) ∧
    mapDemo.CallWithMap
        [(gstr "age", GoVal.vInt 30), (gstr "name", GoVal.vString (gstr "Alice"))] =
      .ok (mapDemo.fn [GoVal.vString (gstr "Alice"), GoVal.vInt 30]) :=
  ⟨by decide,
    (claim_C5_named_mapping mapDemo
      [(gstr "age", GoVal.vInt 30), (gstr "name", GoVal.vString (gstr "Alice"))]
      (by decide)
      (List.Forall₂.cons rfl (List.Forall₂.cons rfl List.Forall₂.nil))).2.1⟩

/- ================= function.go: struct synthesis and claim C8 ================= -/

/-- Model of capitalizeFirst (function.go, lines 559-566): upper-case
the first character.  Char.toUpper covers the ASCII range of the
unicode.ToUpper call, which is the range exercised here. -/
def capitalizeFirst : GoStr → GoStr
  | [] => []
  | c :: rest => c.toUpper :: rest

/-- Model of createStructTypeFromParams with default options
(function.go, lines 190-216): one field per parameter in order, name
capitalized, empty tag since no tag builder is given. -/
def createStructTypeFromParams (ns : List GoStr) (tys : List GoType) : List StructField :=
  List.zipWith (fun n ty => ⟨capitalizeFirst n, ty, []⟩) ns tys

/-- The loop of GetNonContextParameters (function.go, lines 491-504):
drop every context-typed parameter, keeping names and types aligned. -/
def nonContextParams : List GoStr → List GoType → List GoStr × List GoType
  | _, [] => ([], [])
  | ns, ty :: tys =>
    let rest := nonContextParams ns.tail tys
    if ty = .tContext then rest
    else (ns.headD [] :: rest.1, ty :: rest.2)

/-- Parameter names and types excluding context.Context. -/
def Function.GetNonContextParameters (t : Function) : List GoStr × List GoType :=
  nonContextParams t.paramNames t.paramTypes

/-- The synthesized struct type over the non-context parameters. -/
def Function.GetNonContextStructType (t : Function) : List StructField :=
  createStructTypeFromParams (t.GetNonContextParameters).1 (t.GetNonContextParameters).2

/-- The field loop of structTypesCompatible: position-wise identical
names and types; tags are never consulted. -/
def fieldsCompatible : List StructField → List StructField → Bool
  | [], _ => true
  | _ :: _, [] => true
  | f1 :: r1, f2 :: r2 =>
    if f1.name = f2.name ∧ f1.type = f2.type then fieldsCompatible r1 r2 else false

/-- Model of structTypesCompatible (function.go, lines 537-556): both
sides are struct types by construction here, so the kind check holds;
then same field count and position-wise identical names and types. -/
def structTypesCompatible (t1 t2 : List StructField) : Bool :=
  if t1.length = t2.length then fieldsCompatible t1 t2 else false

/-- A struct value: its runtime type together with the field values in
field order. -/
structure StructInstance where
  ty : List StructField
  vals : List GoVal

/-- Model of reflect FieldByName: the value of the first field bearing
the name; a missing field gives the zero value. -/
def fieldByName (s : StructInstance) (n : GoStr) : GoVal :=
  match s.ty.findIdx? (fun f => f.name == n) with
  | some i => s.vals.getD i .vNil
  | none => .vNil

/-- Model of CallWithNonContextStructAndContext (function.go, lines
339-362): the supplied record must be structurally compatible with the
non-context struct type; its fields are read by capitalized parameter
name and passed to the context-qualified call. -/
def Function.CallWithNonContextStructAndContext (t : Function) (ctx : GoVal)
    (s : StructInstance) : Except CallError (List GoVal) :=
  let nonCtxTy := t.GetNonContextStructType
  if structTypesCompatible s.ty nonCtxTy then
    t.CallWithContext ctx
      ((t.GetNonContextParameters).1.map (fun n => fieldByName s (capitalizeFirst n)))
  else .error (.structTypeMismatch nonCtxTy s.ty)

/-- The default field used for out-of-range reads in statements about
struct types. -/
def blankField : StructField := ⟨[], .tInvalid, []⟩

theorem fieldsCompatible_spec :
    ∀ t1 t2 : List StructField, t1.length = t2.length →
      (fieldsCompatible t1 t2 = true ↔ ∀ i, i < t1.length →
        (t1.getD i blankField).name = (t2.getD i blankField).name ∧
        (t1.getD i blankField).type = (t2.getD i blankField).type) := by
  intro t1
  induction t1 with
  | nil =>
    intro t2 hlen
    constructor
    · intro _ i hi
      simp at hi
    · intro _
      rfl
  | cons f1 r1 ih =>
    intro t2 hlen
    cases t2 with
    | nil => simp at hlen
    | cons f2 r2 =>
      have hlen2 : r1.length = r2.length := by simpa using hlen
      show (if f1.name = f2.name ∧ f1.type = f2.type
          then fieldsCompatible r1 r2 else false) = true ↔ _
      by_cases hh : f1.name = f2.name ∧ f1.type = f2.type
      · rw [if_pos hh, ih r2 hlen2]
        constructor
        · intro hall i hi
          cases i with
          | zero => exact hh
          | succ i => exact hall i (by simpa using hi)
        · intro hall i hi
          exact hall (i + 1) (by simpa using hi)
      · rw [if_neg hh]
        constructor
        · intro hfalse
          exact absurd hfalse Bool.false_ne_true
        · intro hall
          exact absurd (hall 0 (by simp)) hh

theorem fieldsCompatible_retag (retag : StructField → GoStr) :
    ∀ t1 t2 : List StructField,
      fieldsCompatible t1 (t2.map (fun f => ⟨f.name, f.type, retag f⟩)) =
        fieldsCompatible t1 t2 := by
  intro t1
  induction t1 with
  | nil => intro t2; rfl
  | cons f1 r1 ih =>
    intro t2
    cases t2 with
    | nil => rfl
    | cons f2 r2 =>
      show (if f1.name = f2.name ∧ f1.type = f2.type
          then fieldsCompatible r1 (r2.map (fun f => ⟨f.name, f.type, retag f⟩))
          else false) = _
      by_cases hh : f1.name = f2.name ∧ f1.type = f2.type
      · rw [if_pos hh, ih r2]
        show _ = (if f1.name = f2.name ∧ f1.type = f2.type
          then fieldsCompatible r1 r2 else false)
        rw [if_pos hh]
      · rw [if_neg hh]
        show _ = (if f1.name = f2.name ∧ f1.type = f2.type
          then fieldsCompatible r1 r2 else false)
        rw [if_neg hh]

/-- C8: two record types are structurally compatible exactly when they
have the same field count and position-wise identical names and types,
with tags playing no part; and the non-context-record-plus-context
invocation accepts a supplied record exactly when it is structurally
compatible with the non-context record type, dispatching to the
context-qualified call on the field values read by name. -/
theorem claim_C8_struct_compatibility (t1 t2 : List StructField) :
    (structTypesCompatible t1 t2 = true ↔
      (t1.length = t2.length ∧ ∀ i, i < t1.length →
        (t1.getD i blankField).name = (t2.getD i blankField).name ∧
        (t1.getD i blankField).type = (t2.getD i blankField).type)) ∧
    (∀ retag : StructField → GoStr,
      structTypesCompatible t1 (t2.map (fun f => ⟨f.name, f.type, retag f⟩)) =
        structTypesCompatible t1 t2) ∧
    (∀ (t : Function) (ctx : GoVal) (s : StructInstance),
      (structTypesCompatible s.ty t.GetNonContextStructType = true →
        t.CallWithNonContextStructAndContext ctx s =
          t.CallWithContext ctx ((t.GetNonContextParameters).1.map
            (fun n => fieldByName s (capitalizeFirst n)))) ∧
      (structTypesCompatible s.ty t.GetNonContextStructType = false →
        t.CallWithNonContextStructAndContext ctx s =
          .error (.structTypeMismatch t.GetNonContextStructType s.ty))) := by
  refine ⟨?_, ?_, ?_⟩
  · unfold structTypesCompatible
    by_cases hlen : t1.length = t2.length
    · rw [if_pos hlen, fieldsCompatible_spec t1 t2 hlen]
      constructor
      · intro h
        exact ⟨hlen, h⟩
      · intro h
        exact h.2
    · rw [if_neg hlen]
      constructor
      · intro hfalse
        exact absurd hfalse Bool.false_ne_true
      · intro h
        exact absurd h.1 hlen
  · intro retag
    unfold structTypesCompatible
    rw [List.length_map, fieldsCompatible_retag retag t1 t2]
  · intro t ctx s
    constructor
    · intro h
      unfold Function.CallWithNonContextStructAndContext
      dsimp only
      rw [if_pos (by rw [h])]
    · intro h
      unfold Function.CallWithNonContextStructAndContext
      dsimp only
      rw [if_neg (by rw [h]; exact Bool.false_ne_true)]

/-- Witness for C8: a field tag difference does not break structural
compatibility. -/
theorem claim_C8_witness :
    structTypesCompatible [⟨gstr "Id", .tInt, []⟩]
      [⟨gstr "Id", .tInt, gstr "json tag"⟩] = true :=
  (claim_C8_struct_compatibility [⟨gstr "Id", .tInt, []⟩]
    [⟨gstr "Id", .tInt, gstr "json tag"⟩]).1.mpr (by decide)

/- ================= resolver.go: format detection, claim C9 ================= -/

/-- Failure conditions of DetectExecutableFormat: the file cannot be
opened, the single Read call fails (empty file), or the magic bytes
match nothing. -/
inductive DetectError
  | openFailed
  | readFailed
  | unrecognized (magic : List Nat)
  deriving DecidableEq

/-- The ELF magic: 0x7f followed by the letters E, L, F. -/
def elfMagic (m : List Nat) : Prop :=
  m.getD 0 0 = 0x7f ∧ m.getD 1 0 = 0x45 ∧ m.getD 2 0 = 0x4c ∧ m.getD 3 0 = 0x46

/-- The PE magic: the letters M, Z. -/
def peMagic (m : List Nat) : Prop :=
  m.getD 0 0 = 0x4d ∧ m.getD 1 0 = 0x5a

/-- The four Mach-O magic variants. -/
def machoMagic (m : List Nat) : Prop :=
  (m.getD 0 0 = 0xfe ∧ m.getD 1 0 = 0xed ∧ m.getD 2 0 = 0xfa ∧ m.getD 3 0 = 0xce) ∨
  (m.getD 0 0 = 0xce ∧ m.getD 1 0 = 0xfa ∧ m.getD 2 0 = 0xed ∧ m.getD 3 0 = 0xfe) ∨
  (m.getD 0 0 = 0xfe ∧ m.getD 1 0 = 0xed ∧ m.getD 2 0 = 0xfa ∧ m.getD 3 0 = 0xcf) ∨
  (m.getD 0 0 = 0xcf ∧ m.getD 1 0 = 0xfa ∧ m.getD 2 0 = 0xed ∧ m.getD 3 0 = 0xfe)

instance (m : List Nat) : Decidable (elfMagic m) := by
  unfold elfMagic; infer_instance

instance (m : List Nat) : Decidable (peMagic m) := by
  unfold peMagic; infer_instance

instance (m : List Nat) : Decidable (machoMagic m) := by
  unfold machoMagic; infer_instance

/-- The classification switch of DetectExecutableFormat over the
four-byte buffer, in source order. -/
def classifyMagic (m : List Nat) : ExecutableFormat × Option DetectError :=
  if elfMagic m then (.formatELF, none)
  else if peMagic m then (.formatPE, none)
  else if machoMagic m then (.formatMachO, none)
  else (.formatUnknown, some (.unrecognized m))

/-- Model of DetectExecutableFormat (resolver.go, lines 71-98): none
models an unopenable file; on an empty file the single Read call
returns end-of-file and detection fails; otherwise Read copies up to
four leading bytes into the zero-initialized four-byte buffer, which
is then classified. -/
def DetectExecutableFormat (file : Option (List Nat)) :
    ExecutableFormat × Option DetectError :=
  match file with
  | none => (.formatUnknown, some .openFailed)
  | some content =>
    if content.length = 0 then (.formatUnknown, some .readFailed)
    else classifyMagic (content.take 4 ++ List.replicate (4 - content.length) 0)

/-- C9 as written fails on the code: the two-byte file holding just the
PE prefix is shorter than the four-byte magic, yet detection succeeds
and classifies it as PE, because the Read call returns the two bytes
without an error and the remaining buffer bytes stay zero. -/
theorem claim_C9_counterexample :
    (([0x4d, 0x5a] : List Nat).length < 4) ∧
    DetectExecutableFormat (some [0x4d, 0x5a]) = (.formatPE, none) :=
  ⟨by decide, rfl⟩

/-- C9 amended: detection reads up to the first four bytes into a
zero-initialized buffer and classifies them: an unreadable file and an
empty file fail reporting the Unknown format; the ELF, PE and the four
Mach-O magic sequences classify as their formats; a buffer matching
none of the sequences fails with the format-not-recognized condition
and the Unknown format.  A file shorter than four bytes fails only
when its zero-padded buffer matches nothing, so a two-byte PE prefix
still classifies as PE. -/
theorem claim_C9_format_detection :
    DetectExecutableFormat none = (.formatUnknown, some .openFailed) ∧
    DetectExecutableFormat (some []) = (.formatUnknown, some .readFailed) ∧
    (∀ content : List Nat, content ≠ [] →
      DetectExecutableFormat (some content) =
        classifyMagic (content.take 4 ++ List.replicate (4 - content.length) 0)) ∧
    (∀ rest : List Nat,
      DetectExecutableFormat (some (0x7f :: 0x45 :: 0x4c :: 0x46 :: rest)) =
        (.formatELF, none)) ∧
    (∀ rest : List Nat,
      DetectExecutableFormat (some (0x4d :: 0x5a :: rest)) = (.formatPE, none)) ∧
    (DetectExecutableFormat (some [0xfe, 0xed, 0xfa, 0xce]) = (.formatMachO, none) ∧
      DetectExecutableFormat (some [0xce, 0xfa, 0xed, 0xfe]) = (.formatMachO, none) ∧
      DetectExecutableFormat (some [0xfe, 0xed, 0xfa, 0xcf]) = (.formatMachO, none) ∧
      DetectExecutableFormat (some [0xcf, 0xfa, 0xed, 0xfe]) = (.formatMachO, none)) ∧
    (∀ content : List Nat, content ≠ [] →
      ¬ elfMagic (content.take 4 ++ List.replicate (4 - content.length) 0) →
      ¬ peMagic (content.take 4 ++ List.replicate (4 - content.length) 0) →
      ¬ machoMagic (content.take 4 ++ List.replicate (4 - content.length) 0) →
      DetectExecutableFormat (some content) =
        (.formatUnknown, some (.unrecognized
          (content.take 4 ++ List.replicate (4 - content.length) 0)))) := by
  refine ⟨rfl, rfl, ?_, fun rest => rfl, fun rest => rfl, ⟨rfl, rfl, rfl, rfl⟩, ?_⟩
  · intro content hne
    unfold DetectExecutableFormat
    dsimp only
    rw [if_neg (fun h => hne (List.length_eq_zero.mp h))]
  · intro content hne h1 h2 h3
    unfold DetectExecutableFormat
    dsimp only
    rw [if_neg (fun h => hne (List.length_eq_zero.mp h))]
    unfold classifyMagic
    rw [if_neg h1, if_neg h2, if_neg h3]

/-- Witness for C9 at a three-byte unrecognized file: the zero-padded
buffer is reported in the failure. -/
theorem claim_C9_witness :
    (([1, 2, 3] : List Nat) ≠ []) ∧
    DetectExecutableFormat (some [1, 2, 3]) =
      (.formatUnknown, some (.unrecognized [1, 2, 3, 0])) :=
  ⟨by decide,
    (claim_C9_format_detection).2.2.2.2.2.2 [1, 2, 3]
      (by decide) (by decide) (by decide) (by decide)⟩

end Dwarfreflect
